import Mathlib

/-!
Verification development for the gavin pipeline-task auditor.

The repository scans build-pipeline YAML files of many git repositories for
task invocations, compares the versions found against configured valid
states, and synchronizes local sparse mirrors of the repositories.  The
definitions below are shallow embeddings of the corresponding Rust
functions; Rust strings are modelled as lists of characters (List Char) and
raw byte strings as lists of naturals (List Nat).  Each definition names the
source function it mirrors.
-/

namespace Gavin

/-- Characters of a string literal, used to write Rust string values. -/
def str (s : String) : List Char := s.data

/-- The single-quote character, written by code to avoid escape clutter. -/
def quoteChar : Char := Char.ofNat 39

/-- The double-quote character. -/
def dquoteChar : Char := Char.ofNat 34

/-- Rust str::split(sep) over a list: splits at every separator, keeping
empty parts, so the result always has one more part than separators. -/
def splitOnSep {α : Type} [DecidableEq α] (sep : α) : List α → List (List α)
  | [] => [[]]
  | a :: rest =>
    if a = sep then
      [] :: splitOnSep sep rest
    else
      match splitOnSep sep rest with
      | h :: t => (a :: h) :: t
      | [] => [[a]]

/-- Rust str::contains(needle) for a literal substring. -/
def containsSub (needle : List Char) : List Char → Bool
  | [] => needle.isEmpty
  | c :: rest => needle.isPrefixOf (c :: rest) || containsSub needle rest

/-- Rust str::trim: whitespace removed from both ends. -/
def trimChars (l : List Char) : List Char :=
  ((l.dropWhile Char.isWhitespace).reverse.dropWhile Char.isWhitespace).reverse

/-- Rust str::trim_matches(c): every leading and trailing occurrence of the
character removed. -/
def trimMatchesChar (c : Char) (l : List Char) : List Char :=
  ((l.dropWhile (fun a => a = c)).reverse.dropWhile (fun a => a = c)).reverse

/-! ## VersionEquivalence (src/lib.rs, VersionCompare::version_eq)

The Rust code normalizes both version strings and parses them with the
semver crate; the parser below follows Semantic Versioning 2.0.0 as that
crate implements it for 64-bit components: major.minor.patch are numeric
identifiers without leading zeros that fit in a u64, followed by an
optional pre-release part after a hyphen and an optional build part after
a plus sign. -/

/-- Numeric value of a list of decimal digits. -/
def digitsToNat (l : List Char) : Nat :=
  l.foldl (fun acc c => 10 * acc + (c.toNat - 48)) 0

/-- A numeric identifier with more than one digit must not start with 0. -/
def hasLeadingZero (l : List Char) : Bool :=
  decide (1 < l.length) && decide (l.head? = some '0')

/-- Parse a numeric identifier (major, minor or patch component): a
nonempty run of digits, no leading zero, value below 2 to the 64. -/
def parseNumericId (l : List Char) : Option (Nat × List Char) :=
  if (l.takeWhile Char.isDigit).isEmpty then none
  else if hasLeadingZero (l.takeWhile Char.isDigit) then none
  else if digitsToNat (l.takeWhile Char.isDigit) < 2 ^ 64 then
    some (digitsToNat (l.takeWhile Char.isDigit), l.dropWhile Char.isDigit)
  else none

/-- A parsed semver value; equality of two values (as the semver crate
derives it) compares all five fields, the pre-release and build parts as
raw text. -/
structure SemVer where
  major : Nat
  minor : Nat
  patch : Nat
  pre : List Char
  build : List Char
deriving DecidableEq, Repr

/-- Characters allowed in pre-release and build identifiers. -/
def isIdentChar (c : Char) : Bool := c.isAlphanum || c = '-'

/-- A valid pre-release identifier: nonempty, alphanumeric or hyphen, and
an all-digit identifier must not have a leading zero. -/
def validPreId (l : List Char) : Bool :=
  !l.isEmpty && l.all isIdentChar &&
    (if l.all Char.isDigit then !hasLeadingZero l else true)

/-- A valid build identifier: nonempty, alphanumeric or hyphen. -/
def validBuildId (l : List Char) : Bool :=
  !l.isEmpty && l.all isIdentChar

/-- Parse the optional pre-release and build tail after the patch number. -/
def parseSemVerTail (major minor patch : Nat) (r : List Char) : Option SemVer :=
  match r with
  | [] => some ⟨major, minor, patch, [], []⟩
  | '-' :: rest =>
    if (splitOnSep '.' (rest.takeWhile (fun c => c ≠ '+'))).all validPreId then
      match rest.dropWhile (fun c => c ≠ '+') with
      | [] => some ⟨major, minor, patch, rest.takeWhile (fun c => c ≠ '+'), []⟩
      | '+' :: b =>
        if (splitOnSep '.' b).all validBuildId then
          some ⟨major, minor, patch, rest.takeWhile (fun c => c ≠ '+'), b⟩
        else none
      | _ => none
    else none
  | '+' :: b =>
    if (splitOnSep '.' b).all validBuildId then some ⟨major, minor, patch, [], b⟩
    else none
  | _ => none

/-- Parse a full semver string: three dot-separated numeric identifiers and
the optional tail. -/
def parseSemVer (l : List Char) : Option SemVer :=
  match parseNumericId l with
  | none => none
  | some (major, r1) =>
    match r1 with
    | '.' :: r2 =>
      match parseNumericId r2 with
      | none => none
      | some (minor, r3) =>
        match r3 with
        | '.' :: r4 =>
          match parseNumericId r4 with
          | none => none
          | some (patch, r5) => parseSemVerTail major minor patch r5
        | _ => none
    | _ => none

/-- Mirrors the normalize closure inside VersionCompare::version_eq
(src/lib.rs lines 936-946): a value of only ascii digits gets ".0.0"
appended, otherwise a value containing exactly one dot gets ".0" appended,
and anything else is used as-is. -/
def normalizeVersion (v : List Char) : List Char :=
  if v.all Char.isDigit then v ++ str ".0.0"
  else if v.count '.' = 1 then v ++ str ".0"
  else v

/-- Mirrors VersionCompare::version_eq for String (src/lib.rs lines
933-953): parse both normalized inputs; when both parse compare the parsed
values, otherwise fall back to equality of the original inputs. -/
def version_eq (a b : List Char) : Bool :=
  match parseSemVer (normalizeVersion a), parseSemVer (normalizeVersion b) with
  | some v1, some v2 => decide (v1 = v2)
  | _, _ => decide (a = b)

/-! ## ComplianceValidator (src/lib.rs, check_all_task_implementations) -/

/-- A configured valid GitVersion combination (src/gitversion.rs). -/
structure GitVersionState where
  setup_version : List Char
  execute_version : List Char
  spec_version : List Char
deriving DecidableEq, Repr

/-- A configured valid state for a task (src/lib.rs TaskValidState). -/
inductive TaskValidState where
  | gitversion (state : GitVersionState)
  | default (version : List Char)
deriving DecidableEq, Repr

/-- One task occurrence found in a pipeline file (src/lib.rs
TaskImplementation). -/
structure TaskImplementation where
  repo_name : List Char
  version : List Char
  file_path : List Char
deriving DecidableEq, Repr

/-- The validity test for one generic (Default) task implementation
(src/lib.rs lines 670-672): some valid state is a Default state whose
version string equals the implementation version. -/
def isValidDefault (version : List Char) (valid_states : List TaskValidState) : Bool :=
  valid_states.any fun state =>
    match state with
    | TaskValidState.default v => decide (v = version)
    | _ => false

/-- What the generic-task branch of check_all_task_implementations records
for one task (src/lib.rs lines 660-683). -/
structure DefaultTaskOutcome where
  missing_state : Bool
  invalid_impls : List TaskImplementation
deriving DecidableEq, Repr

/-- Mirrors src/lib.rs lines 660-683: with an empty valid-state list the
task is inserted into missing_states; independently every implementation
failing the validity test is pushed into invalid_states. -/
def processDefaultTask (implementations : List TaskImplementation)
    (valid_states : List TaskValidState) : DefaultTaskOutcome :=
  { missing_state := valid_states.isEmpty
    invalid_impls := implementations.filter fun impl =>
      ! isValidDefault impl.version valid_states }

/-- The validity test for a grouped GitVersion triple (src/lib.rs lines
607-616): each member is an Option and a missing member makes its map_or
conjunct false. -/
def isValidGitversionTriple
    (setup_version execute_version spec_version : Option (List Char))
    (valid_states : List GitVersionState) : Bool :=
  valid_states.any fun state =>
    (match setup_version with
     | some v => decide (v = state.setup_version)
     | none => false) &&
    (match execute_version with
     | some v => decide (v = state.execute_version)
     | none => false) &&
    (match spec_version with
     | some s => decide (s = state.spec_version)
     | none => false)

/-- How a missing triple member is rendered (src/lib.rs lines 626-632,
unwrap_or with the question-mark sentinel). -/
def renderMember (m : Option (List Char)) : List Char := m.getD (str "?")

/-! ## TaskExtractor lookahead (src/lib.rs lines 321-341 and 576-596) -/

/-- The value pulled out of a versionSpec line (src/lib.rs lines 326-335):
part after the first colon, trimmed, with single then double quotes
stripped from both ends. -/
def extractSpecValue (next_trimmed : List Char) : List Char :=
  trimMatchesChar dquoteChar
    (trimMatchesChar quoteChar
      (trimChars ((splitOnSep ':' next_trimmed).getD 1 [])))

/-- The body of the lookahead loop over the window of following lines: the
first line containing a versionSpec field yields its value, a line
containing a task declaration ends the search, otherwise continue. -/
def lookaheadAux : List (List Char) → Option (List Char)
  | [] => none
  | next_line :: rest =>
    if containsSub (str "versionSpec:") (trimChars next_line) then
      some (extractSpecValue (trimChars next_line))
    else if containsSub (str "task:") (trimChars next_line) then
      none
    else
      lookaheadAux rest

/-- Mirrors the lookahead at a setup-task match on line index i: iterate
over lines.iter().skip(i + 1).take(10). -/
def lookaheadVersionSpec (lines : List (List Char)) (i : Nat) : Option (List Char) :=
  lookaheadAux ((lines.drop (i + 1)).take 10)

/-! ## RepositorySynchronizer (src/git_manager.rs) -/

/-- Generic priority-order attempt loop: try each branch in order, record
every attempt, stop at the first success. -/
def tryInOrder (ok : List Char → Bool) : List (List Char) → List (List Char) × Option (List Char)
  | [] => ([], none)
  | b :: rest =>
    if ok b then ([b], some b)
    else
      (b :: (tryInOrder ok rest).1, (tryInOrder ok rest).2)

/-- The fixed fallback priority order. -/
def fallbackBranches : List (List Char) := [str "develop", str "main", str "master"]

/-- Mirrors the nested match in GitManager::clone_repo (src/git_manager.rs
lines 143-157): the first component records the try_fetch_branch calls in
order, the second the branch selected (none means the branch-not-found
error). -/
def cloneSelectBranch (ok : List Char → Bool) : List (List Char) × Option (List Char) :=
  if ok (str "develop") then ([str "develop"], some (str "develop"))
  else if ok (str "main") then ([str "develop", str "main"], some (str "main"))
  else if ok (str "master") then
    ([str "develop", str "main", str "master"], some (str "master"))
  else ([str "develop", str "main", str "master"], none)

/-- Mirrors the detached-HEAD checkout fallback in GitManager::update_repo
(src/git_manager.rs lines 214-229): attempts recorded in order, the flag
tells whether some checkout succeeded. -/
def updateCheckoutFallback (ok : List Char → Bool) : List (List Char) × Bool :=
  if ok (str "develop") then ([str "develop"], true)
  else if ok (str "main") then ([str "develop", str "main"], true)
  else if ok (str "master") then ([str "develop", str "main", str "master"], true)
  else ([str "develop", str "main", str "master"], false)

/-- The repository-level operations a sync entry point can run. -/
inductive GitAction where
  | cloneRepo
  | updateRepo
deriving DecidableEq, Repr

/-- Mirrors GitManager::ensure_repo_exists (src/git_manager.rs lines
66-72): update when the mirror directory exists, clone otherwise. -/
def ensure_repo_exists (dir_exists : Bool) : List GitAction :=
  if dir_exists then [GitAction.updateRepo] else [GitAction.cloneRepo]

/-- Mirrors GitManager::ensure_repo_exists_new (src/git_manager.rs lines
75-77): clone_repo is called unconditionally. -/
def ensure_repo_exists_new (_dir_exists : Bool) : List GitAction :=
  [GitAction.cloneRepo]

/-- Mirrors GitManager::ensure_repo_exists_no_update (src/git_manager.rs
lines 304-310): an existing mirror returns Ok at once, otherwise clone. -/
def ensure_repo_exists_no_update (dir_exists : Bool) : List GitAction :=
  if dir_exists then [] else [GitAction.cloneRepo]

/-- Mirrors the short-name derivation in GitManager::new
(src/git_manager.rs line 12): repo_url.split on slash, last part,
unwrap_or the literal repo. -/
def gitManagerRepoName (repo_url : List Char) : List Char :=
  (splitOnSep '/' repo_url).getLastD (str "repo")

/-- The mirror directory GitManager::new derives (src/git_manager.rs lines
26-29), as path segments under the working directory. -/
def gitManagerRepoDir (repo_url : List Char) : List (List Char) :=
  [str "temp_repos", gitManagerRepoName repo_url]

/-- Mirrors Database::get_local_path (src/database.rs lines 186-196), as
path segments under the working directory. -/
def get_local_path (repo_url : List Char) : List (List Char) :=
  [str "temp_repos", (splitOnSep '/' repo_url).getLastD (str "repo")]

/-! ## ConcurrencyOrchestrator (src/lib.rs ensure_all_repos_exist and
src/cli_handler.rs handle_other_cli_args) -/

/-- The synchronization failures a repository unit can report. -/
inductive SyncError where
  | branchNotFound
  | cloneFailed
  | updateFailed
deriving DecidableEq, Repr

/-- Mirrors the await loop of ensure_all_repos_exist (src/lib.rs lines
808-810): the per-repository results are awaited in order and the double
question mark re-raises the first error, ending the whole call. -/
def ensure_all_repos_exist : List (Except SyncError Unit) → Except SyncError Unit
  | [] => Except.ok ()
  | Except.ok _ :: rest => ensure_all_repos_exist rest
  | Except.error e :: _ => Except.error e

/-- Mirrors the result-collection loop of the add-multiple-repos flow
(src/cli_handler.rs lines 176-187): every per-repository outcome is pushed
onto success_urls or failed_repos and no error is re-raised. -/
def collectCloneOutcomes :
    List (List Char × Except SyncError Unit) →
    List (List Char) × List (List Char × SyncError)
  | [] => ([], [])
  | (url, Except.ok _) :: rest =>
    (url :: (collectCloneOutcomes rest).1, (collectCloneOutcomes rest).2)
  | (url, Except.error e) :: rest =>
    ((collectCloneOutcomes rest).1, (url, e) :: (collectCloneOutcomes rest).2)

/-! ## Credential storage (src/database.rs) -/

/-- The stored git_credentials row: a username and the obfuscated token
bytes. -/
structure CredentialsRow where
  username : List Nat
  token : List Nat
deriving DecidableEq, Repr

/-- The byte obfuscation used on the token: xor with 255. -/
def xorByte (b : Nat) : Nat := b ^^^ 255

/-- A UTF-8 continuation byte. -/
def isContByte (b : Nat) : Bool := decide (128 ≤ b) && decide (b ≤ 191)

/-- UTF-8 validity of a byte sequence, as Rust String::from_utf8 checks
it (well-formed sequences encoding scalar values, surrogates and
over-long forms excluded). -/
def validUtf8 : List Nat → Bool
  | [] => true
  | b :: rest =>
    if b < 128 then validUtf8 rest
    else if 194 ≤ b ∧ b ≤ 223 then
      match rest with
      | c1 :: r => isContByte c1 && validUtf8 r
      | [] => false
    else if 224 ≤ b ∧ b ≤ 239 then
      match rest with
      | c1 :: c2 :: r =>
        (if b = 224 then decide (160 ≤ c1) && decide (c1 ≤ 191)
         else if b = 237 then decide (128 ≤ c1) && decide (c1 ≤ 159)
         else isContByte c1) && isContByte c2 && validUtf8 r
      | _ => false
    else if 240 ≤ b ∧ b ≤ 244 then
      match rest with
      | c1 :: c2 :: c3 :: r =>
        (if b = 240 then decide (144 ≤ c1) && decide (c1 ≤ 191)
         else if b = 244 then decide (128 ≤ c1) && decide (c1 ≤ 143)
         else isContByte c1) && isContByte c2 && isContByte c3 && validUtf8 r
      | _ => false
    else false

/-- Mirrors Database::set_git_credentials (src/database.rs lines 137-158)
over an abstract stored row: split the input on the colon byte (58); any
count of parts other than two is rejected before the stored row is
touched; otherwise the old row is deleted and the new row inserted with
the token bytes xored with 255.  The flag tells whether the call
succeeded. -/
def set_git_credentials (stored : Option CredentialsRow) (credentials : List Nat) :
    Option CredentialsRow × Bool :=
  if (splitOnSep 58 credentials).length ≠ 2 then (stored, false)
  else
    (some ⟨(splitOnSep 58 credentials).getD 0 [],
           ((splitOnSep 58 credentials).getD 1 []).map xorByte⟩,
     true)

/-- Mirrors Database::get_git_credentials (src/database.rs lines 160-184):
no row gives Ok none; otherwise the token bytes are xored back and decoded
as UTF-8, a decoding failure surfacing as an error. -/
def get_git_credentials (stored : Option CredentialsRow) :
    Except Unit (Option (List Nat × List Nat)) :=
  match stored with
  | none => Except.ok none
  | some row =>
    if validUtf8 (row.token.map xorByte) then
      Except.ok (some (row.username, row.token.map xorByte))
    else Except.error ()

/-- Bytes of an ascii string, for concrete credential inputs. -/
def asciiBytes (s : String) : List Nat := s.data.map Char.toNat

/-! ## Helper lemmas -/

theorem collectCloneOutcomes_length (results : List (List Char × Except SyncError Unit)) :
    (collectCloneOutcomes results).1.length + (collectCloneOutcomes results).2.length
      = results.length := by
  induction results with
  | nil => rfl
  | cons r rest ih =>
    obtain ⟨url, res⟩ := r
    cases res with
    | ok u => simp [collectCloneOutcomes, Nat.add_right_comm, ih]
    | error e => simpa [collectCloneOutcomes, ← Nat.add_assoc] using ih

theorem collectCloneOutcomes_fst (results : List (List Char × Except SyncError Unit)) :
    (collectCloneOutcomes results).1
      = (results.filter fun r =>
          match r.2 with
          | Except.ok _ => true
          | Except.error _ => false).map Prod.fst := by
  induction results with
  | nil => rfl
  | cons r rest ih =>
    obtain ⟨url, res⟩ := r
    cases res with
    | ok u => simp [collectCloneOutcomes, ih]
    | error e => simpa [collectCloneOutcomes] using ih

theorem collectCloneOutcomes_snd (results : List (List Char × Except SyncError Unit)) :
    (collectCloneOutcomes results).2
      = results.filterMap fun r =>
          match r.2 with
          | Except.error e => some (r.1, e)
          | Except.ok _ => none := by
  induction results with
  | nil => rfl
  | cons r rest ih =>
    obtain ⟨url, res⟩ := r
    cases res with
    | ok u => simpa [collectCloneOutcomes] using ih
    | error e => simp [collectCloneOutcomes, ih]

theorem ensure_all_repos_exist_ok_iff (results : List (Except SyncError Unit)) :
    ensure_all_repos_exist results = Except.ok () ↔
      ∀ r ∈ results, r = Except.ok () := by
  induction results with
  | nil => simp [ensure_all_repos_exist]
  | cons r rest ih =>
    cases r with
    | ok u => cases u; simp [ensure_all_repos_exist, ih]
    | error e => simp [ensure_all_repos_exist]

theorem tryInOrder_snd (ok : List Char → Bool) (bs : List (List Char)) :
    (tryInOrder ok bs).2 = bs.find? ok := by
  induction bs with
  | nil => rfl
  | cons b rest ih =>
    by_cases h : ok b = true
    · simp [tryInOrder, h, List.find?]
    · simp only [Bool.not_eq_true] at h
      simp [tryInOrder, h, List.find?, ih]

theorem tryInOrder_fst (ok : List Char → Bool) (bs : List (List Char)) :
    (tryInOrder ok bs).1 =
      match bs.find? ok with
      | some b => bs.takeWhile (fun x => ! ok x) ++ [b]
      | none => bs := by
  induction bs with
  | nil => rfl
  | cons b rest ih =>
    by_cases h : ok b = true
    · simp [tryInOrder, h, List.find?, List.takeWhile]
    · simp only [Bool.not_eq_true] at h
      simp only [tryInOrder, h, Bool.false_eq_true, if_false, List.find?, List.takeWhile,
        Bool.not_false, ih]
      cases hf : rest.find? ok <;> simp

theorem splitOnSep_ne_nil {α : Type} [DecidableEq α] (sep : α) (l : List α) :
    splitOnSep sep l ≠ [] := by
  induction l with
  | nil => simp [splitOnSep]
  | cons a rest ih =>
    by_cases h : a = sep
    · simp [splitOnSep, h]
    · simp only [splitOnSep, h, if_false]
      cases hs : splitOnSep sep rest with
      | nil => simp
      | cons x t => simp

theorem splitOnSep_not_mem {α : Type} [DecidableEq α] {sep : α} {l : List α}
    (h : sep ∉ l) : splitOnSep sep l = [l] := by
  induction l with
  | nil => rfl
  | cons a rest ih =>
    simp only [List.mem_cons, not_or] at h
    simp [splitOnSep, Ne.symm h.1, ih h.2]

theorem two_le_length_splitOnSep {α : Type} [DecidableEq α] {sep : α} {l : List α}
    (h : sep ∈ l) : 2 ≤ (splitOnSep sep l).length := by
  induction l with
  | nil => simp at h
  | cons a rest ih =>
    by_cases ha : a = sep
    · have h1 : 1 ≤ (splitOnSep sep rest).length :=
        List.length_pos.mpr (splitOnSep_ne_nil sep rest)
      simp only [splitOnSep, ha, if_true, List.length_cons]
      omega
    · have hmem : sep ∈ rest := by
        rcases List.mem_cons.mp h with h' | h'
        · exact absurd h'.symm ha
        · exact h'
      have h2 := ih hmem
      simp only [splitOnSep, ha, if_false]
      cases hs : splitOnSep sep rest with
      | nil => exact absurd hs (splitOnSep_ne_nil sep rest)
      | cons x t =>
        rw [hs] at h2
        simpa using h2

theorem getLast?_splitOnSep_append {α : Type} [DecidableEq α] (sep : α)
    (a : List α) {b : List α} (h : sep ∉ b) :
    (splitOnSep sep (a ++ sep :: b)).getLast? = some b := by
  induction a with
  | nil =>
    simp [splitOnSep, splitOnSep_not_mem h]
  | cons x a' ih =>
    by_cases hx : x = sep
    · simp only [List.cons_append, splitOnSep, hx, if_true]
      cases hs : splitOnSep sep (a' ++ sep :: b) with
      | nil => exact absurd hs (splitOnSep_ne_nil sep _)
      | cons y t =>
        rw [hs] at ih
        rw [List.getLast?_cons_cons, ih]
    · simp only [List.cons_append, splitOnSep, hx, if_false]
      have hmem : sep ∈ a' ++ sep :: b := by simp
      have hlen := two_le_length_splitOnSep hmem
      cases hs : splitOnSep sep (a' ++ sep :: b) with
      | nil => exact absurd hs (splitOnSep_ne_nil sep _)
      | cons y t =>
        rw [hs] at ih hlen
        cases t with
        | nil => simp at hlen
        | cons z t' =>
          rw [List.getLast?_cons_cons] at ih ⊢
          exact ih

theorem splitOnSep_append_of_not_mem {α : Type} [DecidableEq α] {sep : α}
    {a b : List α} (ha : sep ∉ a) (hb : sep ∉ b) :
    splitOnSep sep (a ++ sep :: b) = [a, b] := by
  induction a with
  | nil => simp [splitOnSep, splitOnSep_not_mem hb]
  | cons x a' ih =>
    simp only [List.mem_cons, not_or] at ha
    have hx : ¬ x = sep := fun hcontra => ha.1 hcontra.symm
    simp only [List.cons_append, splitOnSep, hx, if_false, List.append_eq]
    rw [ih ha.2]

theorem xorByte_involution (b : Nat) : xorByte (xorByte b) = b := by
  simp [xorByte, Nat.xor_assoc]

theorem xorByte_comp_self : xorByte ∘ xorByte = id := funext xorByte_involution

theorem map_xorByte_involution (t : List Nat) : (t.map xorByte).map xorByte = t := by
  rw [List.map_map, xorByte_comp_self, List.map_id]

theorem lookaheadAux_eq_some_iff (w : List (List Char)) (s : List Char) :
    lookaheadAux w = some s ↔
      ∃ pre line post, w = pre ++ line :: post
        ∧ (∀ l ∈ pre, containsSub (str "versionSpec:") (trimChars l) = false
            ∧ containsSub (str "task:") (trimChars l) = false)
        ∧ containsSub (str "versionSpec:") (trimChars line) = true
        ∧ s = extractSpecValue (trimChars line) := by
  induction w generalizing s with
  | nil =>
    simp only [lookaheadAux]
    constructor
    · intro h; cases h
    · rintro ⟨pre, line, post, habs, -, -, -⟩
      have h2 : pre ++ line :: post = [] := habs.symm
      rw [List.append_eq_nil] at h2
      exact absurd h2.2 (by simp)
  | cons a rest ih =>
    by_cases hspec : containsSub (str "versionSpec:") (trimChars a) = true
    · simp only [lookaheadAux, hspec, if_true, Option.some.injEq]
      constructor
      · intro h
        exact ⟨[], a, rest, rfl, by simp, hspec, h.symm⟩
      · rintro ⟨pre, line, post, hdecomp, hpre, hline, hs⟩
        cases pre with
        | nil =>
          simp only [List.nil_append, List.cons.injEq] at hdecomp
          rw [hs, hdecomp.1]
        | cons p pre' =>
          simp only [List.cons_append, List.cons.injEq] at hdecomp
          have hp := hpre p (by simp)
          rw [← hdecomp.1] at hp
          rw [hp.1] at hspec
          cases hspec
    · simp only [Bool.not_eq_true] at hspec
      by_cases htask : containsSub (str "task:") (trimChars a) = true
      · simp only [lookaheadAux, hspec, Bool.false_eq_true, if_false, htask, if_true]
        constructor
        · intro h; cases h
        · rintro ⟨pre, line, post, hdecomp, hpre, hline, hs⟩
          cases pre with
          | nil =>
            simp only [List.nil_append, List.cons.injEq] at hdecomp
            rw [hdecomp.1] at hspec
            rw [hspec] at hline
            cases hline
          | cons p pre' =>
            simp only [List.cons_append, List.cons.injEq] at hdecomp
            have hp := hpre p (by simp)
            rw [← hdecomp.1] at hp
            rw [hp.2] at htask
            cases htask
      · simp only [Bool.not_eq_true] at htask
        simp only [lookaheadAux, hspec, Bool.false_eq_true, if_false, htask]
        rw [ih s]
        constructor
        · rintro ⟨pre, line, post, hdecomp, hpre, hline, hs⟩
          refine ⟨a :: pre, line, post, by rw [hdecomp]; rfl, ?_, hline, hs⟩
          intro l hl
          rcases List.mem_cons.mp hl with h | h
          · rw [h]; exact ⟨hspec, htask⟩
          · exact hpre l h
        · rintro ⟨pre, line, post, hdecomp, hpre, hline, hs⟩
          cases pre with
          | nil =>
            simp only [List.nil_append, List.cons.injEq] at hdecomp
            rw [hdecomp.1] at hspec
            rw [hspec] at hline
            cases hline
          | cons p pre' =>
            simp only [List.cons_append, List.cons.injEq] at hdecomp
            refine ⟨pre', line, post, hdecomp.2, ?_, hline, hs⟩
            intro l hl
            exact hpre l (List.mem_cons_of_mem p hl)

theorem lookaheadAux_stops_at_task (w1 : List (List Char)) {l : List Char}
    (h : containsSub (str "task:") (trimChars l) = true) (w2 w2' : List (List Char)) :
    lookaheadAux (w1 ++ l :: w2) = lookaheadAux (w1 ++ l :: w2') := by
  induction w1 with
  | nil =>
    simp only [List.nil_append, lookaheadAux, h]
    by_cases hspec : containsSub (str "versionSpec:") (trimChars l) = true
    · simp [hspec]
    · simp only [Bool.not_eq_true] at hspec
      simp [hspec]
  | cons a t ih =>
    simp only [List.cons_append, lookaheadAux]
    by_cases hspec : containsSub (str "versionSpec:") (trimChars a) = true
    · simp [hspec]
    · simp only [Bool.not_eq_true] at hspec
      by_cases htask : containsSub (str "task:") (trimChars a) = true
      · simp [hspec, htask]
      · simp only [Bool.not_eq_true] at htask
        simp [hspec, htask, ih]

theorem lookaheadVersionSpec_take (lines : List (List Char)) (i : Nat) :
    lookaheadVersionSpec lines i = lookaheadVersionSpec (lines.take (i + 1 + 10)) i := by
  unfold lookaheadVersionSpec
  rw [List.drop_take]
  have h10 : i + 1 + 10 - (i + 1) = 10 := by omega
  rw [h10, List.take_take]
  norm_num

theorem takeWhile_all_append {p : Char → Bool} {l : List Char} (hl : l.all p = true)
    {x : Char} (hx : p x = false) (r : List Char) :
    (l ++ x :: r).takeWhile p = l ∧ (l ++ x :: r).dropWhile p = x :: r := by
  induction l with
  | nil => simp [List.takeWhile_cons, List.dropWhile_cons, hx]
  | cons c t ih =>
    simp only [List.all_cons, Bool.and_eq_true] at hl
    have h2 := ih hl.2
    simp only [List.cons_append, List.takeWhile_cons, List.dropWhile_cons, hl.1,
      if_true, h2.1, h2.2, and_self, List.cons.injEq, true_and]

theorem parseNumericId_full {n : List Char} {k : Nat}
    (h : parseNumericId n = some (k, [])) :
    n.all Char.isDigit = true ∧ n.isEmpty = false ∧ hasLeadingZero n = false
    ∧ digitsToNat n = k ∧ k < 2 ^ 64 := by
  unfold parseNumericId at h
  by_cases h1 : (n.takeWhile Char.isDigit).isEmpty = true
  · rw [if_pos h1] at h; cases h
  rw [if_neg h1] at h
  by_cases h2 : hasLeadingZero (n.takeWhile Char.isDigit) = true
  · rw [if_pos h2] at h; cases h
  rw [if_neg h2] at h
  by_cases h3 : digitsToNat (n.takeWhile Char.isDigit) < 2 ^ 64
  swap
  · rw [if_neg h3] at h; cases h
  rw [if_pos h3, Option.some.injEq, Prod.mk.injEq] at h
  obtain ⟨hk, hdrop⟩ := h
  have htake : n.takeWhile Char.isDigit = n := by
    have h4 := List.takeWhile_append_dropWhile Char.isDigit n
    rw [hdrop, List.append_nil] at h4
    exact h4
  simp only [Bool.not_eq_true] at h1 h2
  rw [htake] at h1 h2 h3 hk
  have hall : n.all Char.isDigit = true := by
    rw [List.all_eq_true]
    intro x hx
    exact List.mem_takeWhile_imp (p := Char.isDigit) (by rw [htake]; exact hx)
  exact ⟨hall, h1, h2, hk, hk ▸ h3⟩

theorem parseNumericId_append {n : List Char} {k : Nat}
    (h : parseNumericId n = some (k, [])) (r : List Char) :
    parseNumericId (n ++ '.' :: r) = some (k, '.' :: r) := by
  obtain ⟨hall, hne, hlz, hval, hlt⟩ := parseNumericId_full h
  have htd := takeWhile_all_append hall (x := '.') (by decide) r
  unfold parseNumericId
  rw [htd.1, htd.2, hval]
  have hn1 : ¬ (n.isEmpty = true) := by rw [hne]; exact Bool.false_ne_true
  have hn2 : ¬ (hasLeadingZero n = true) := by rw [hlz]; exact Bool.false_ne_true
  rw [if_neg hn1, if_neg hn2, if_pos hlt]

theorem parseSemVer_append_zero_zero {n : List Char} {k : Nat}
    (h : parseNumericId n = some (k, [])) :
    parseSemVer (n ++ str ".0.0") = some ⟨k, 0, 0, [], []⟩ := by
  have h1 : n ++ str ".0.0" = n ++ '.' :: str "0.0" := rfl
  rw [h1]
  unfold parseSemVer
  rw [parseNumericId_append h (str "0.0")]
  rfl

theorem normalize_all_digits {v : List Char} (h : v.all Char.isDigit = true) :
    normalizeVersion v = v ++ str ".0.0" := by
  simp [normalizeVersion, h]

theorem count_dot_zero {l : List Char} (h : l.all Char.isDigit = true) :
    l.count '.' = 0 := by
  rw [List.count_eq_zero]
  intro hmem
  exact absurd (List.all_eq_true.mp h _ hmem) (by decide)

theorem all_digits_append_dot_false (n m : List Char) :
    (n ++ '.' :: m).all Char.isDigit = false := by
  cases hc : (n ++ '.' :: m).all Char.isDigit
  · rfl
  · exact absurd (List.all_eq_true.mp hc '.' (by simp)) (by decide)

theorem normalize_one_dot {n m : List Char} (hn : n.all Char.isDigit = true)
    (hm : m.all Char.isDigit = true) :
    normalizeVersion (n ++ '.' :: m) = (n ++ '.' :: m) ++ str ".0" := by
  have hcount : (n ++ '.' :: m).count '.' = 1 := by
    rw [List.count_append, List.count_cons]
    simp [count_dot_zero hn, count_dot_zero hm]
  simp [normalizeVersion, all_digits_append_dot_false, hcount]

theorem normalize_two_dots {n m p : List Char} (hn : n.all Char.isDigit = true)
    (hm : m.all Char.isDigit = true) (hp : p.all Char.isDigit = true) :
    normalizeVersion (n ++ '.' :: m ++ '.' :: p) = n ++ '.' :: m ++ '.' :: p := by
  have hcount : (n ++ '.' :: m ++ '.' :: p).count '.' = 2 := by
    rw [List.count_append, List.count_append, List.count_cons, List.count_cons]
    simp [count_dot_zero hn, count_dot_zero hm, count_dot_zero hp]
  unfold normalizeVersion
  rw [all_digits_append_dot_false, hcount]
  simp

theorem version_eq_of_parses {a b : List Char} {va vb : SemVer}
    (ha : parseSemVer (normalizeVersion a) = some va)
    (hb : parseSemVer (normalizeVersion b) = some vb) :
    version_eq a b = decide (va = vb) := by
  unfold version_eq
  rw [ha, hb]

theorem version_eq_fallback {a b : List Char}
    (h : parseSemVer (normalizeVersion a) = none
      ∨ parseSemVer (normalizeVersion b) = none) :
    version_eq a b = decide (a = b) := by
  unfold version_eq
  rcases h with h | h
  · rw [h]
  · cases hfirst : parseSemVer (normalizeVersion a)
    · rfl
    · rw [h]

theorem version_eq_expansions {n : List Char} {k : Nat}
    (h : parseNumericId n = some (k, [])) :
    version_eq n (n ++ str ".0") = true ∧ version_eq n (n ++ str ".0.0") = true
    ∧ version_eq (n ++ str ".0") (n ++ str ".0.0") = true := by
  have hall : n.all Char.isDigit = true := (parseNumericId_full h).1
  have hzero : (str "0").all Char.isDigit = true := by decide
  have hnorm1 : normalizeVersion n = n ++ str ".0.0" := normalize_all_digits hall
  have hnorm2 : normalizeVersion (n ++ str ".0") = n ++ str ".0.0" := by
    have h2 := normalize_one_dot hall hzero
    rw [show n ++ str ".0" = n ++ '.' :: str "0" from rfl, h2, List.append_assoc]
    rfl
  have hshape : n ++ '.' :: str "0" ++ '.' :: str "0" = n ++ str ".0.0" := by
    rw [List.append_assoc]
    rfl
  have hnorm3 : normalizeVersion (n ++ str ".0.0") = n ++ str ".0.0" := by
    rw [← hshape]
    exact normalize_two_dots hall hzero hzero
  have hp : parseSemVer (n ++ str ".0.0") = some ⟨k, 0, 0, [], []⟩ :=
    parseSemVer_append_zero_zero h
  refine ⟨?_, ?_, ?_⟩
  · rw [version_eq_of_parses (hnorm1 ▸ hp) (hnorm2 ▸ hp)]
    simp
  · rw [version_eq_of_parses (hnorm1 ▸ hp) (hnorm3 ▸ hp)]
    simp
  · rw [version_eq_of_parses (hnorm2 ▸ hp) (hnorm3 ▸ hp)]
    simp

/-! ## Claim theorems -/

/-! ## Claim theorems -/

/-- C1 counterexample.  The claim says a generic invocation is Compliant
exactly when some ValidState version is equivalent under the section 4.1
relation, so an invocation at version 1 should match a ValidState of
1.0.0.  The code compares the raw strings, so the validity test rejects
the pair even though version_eq accepts it; the GitVersion triple
comparison rejects an equivalent setup member the same way. -/
theorem compliance_ignores_version_equivalence :
    isValidDefault (str "1") [TaskValidState.default (str "1.0.0")] = false
    ∧ version_eq (str "1") (str "1.0.0") = true
    ∧ isValidGitversionTriple (some (str "1")) (some (str "3")) (some (str "6.0.3"))
        [⟨str "1.0.0", str "3", str "6.0.3"⟩] = false := by
  refine ⟨by decide, by decide, by decide⟩

/-- C1 amended.  A generic invocation is classified valid exactly when
some ValidState for the task is a Default state whose version string is
literally equal to the invocation version, and a GitVersion triple is
valid exactly when some configured state has all three members literally
equal; the section 4.1 version-equivalence relation is not consulted. -/
theorem compliance_is_literal_equality :
    (∀ (version : List Char) (valid_states : List TaskValidState),
      isValidDefault version valid_states = true ↔
        TaskValidState.default version ∈ valid_states)
    ∧ (∀ (s e sp : List Char) (valid_states : List GitVersionState),
        isValidGitversionTriple (some s) (some e) (some sp) valid_states = true ↔
          ∃ st ∈ valid_states,
            st.setup_version = s ∧ st.execute_version = e ∧ st.spec_version = sp) := by
  constructor
  · intro version valid_states
    simp only [isValidDefault, List.any_eq_true]
    constructor
    · rintro ⟨state, hmem, hmatch⟩
      cases state with
      | gitversion g => simp at hmatch
      | default v =>
        simp only [decide_eq_true_eq] at hmatch
        exact hmatch ▸ hmem
    · intro hmem
      exact ⟨TaskValidState.default version, hmem, by simp⟩
  · intro s e sp valid_states
    simp only [isValidGitversionTriple, List.any_eq_true, Bool.and_eq_true,
      decide_eq_true_eq]
    constructor
    · rintro ⟨st, hmem, ⟨h1, h2⟩, h3⟩
      exact ⟨st, hmem, h1.symm, h2.symm, h3.symm⟩
    · rintro ⟨st, hmem, h1, h2, h3⟩
      exact ⟨st, hmem, ⟨h1.symm, h2.symm⟩, h3.symm⟩

/-- C2 counterexample.  The claim says a synchronization failure of one
repository never prevents the batch from producing a result with every
repository's outcome.  In ensure_all_repos_exist the await loop re-raises
the first error: with three repositories whose sync results are ok,
branch-not-found, ok, the whole call returns that single error instead of
three outcomes. -/
theorem ensure_all_repos_exist_aborts_on_first_error :
    ensure_all_repos_exist
        [Except.ok (), Except.error SyncError.branchNotFound, Except.ok ()]
      = Except.error SyncError.branchNotFound := rfl

/-- C2 amended.  In the add-multiple-repos onboarding flow every
per-repository outcome is captured: successes and failures partition the
batch, so all N repositories are accounted for and one failure never drops
a sibling.  In ensure_all_repos_exist, however, the overall result is ok
only when every repository succeeded, and a leading error is re-raised as
the result of the whole call. -/
theorem batch_outcome_accounting :
    (∀ results : List (List Char × Except SyncError Unit),
      (collectCloneOutcomes results).1.length + (collectCloneOutcomes results).2.length
        = results.length)
    ∧ (∀ results : List (List Char × Except SyncError Unit),
        (collectCloneOutcomes results).1
          = (results.filter fun r =>
              match r.2 with
              | Except.ok _ => true
              | Except.error _ => false).map Prod.fst)
    ∧ (∀ results : List (List Char × Except SyncError Unit),
        (collectCloneOutcomes results).2
          = results.filterMap fun r =>
              match r.2 with
              | Except.error e => some (r.1, e)
              | Except.ok _ => none)
    ∧ (∀ results : List (Except SyncError Unit),
        ensure_all_repos_exist results = Except.ok () ↔
          ∀ r ∈ results, r = Except.ok ())
    ∧ (∀ (e : SyncError) (rest : List (Except SyncError Unit)),
        ensure_all_repos_exist (Except.error e :: rest) = Except.error e) :=
  ⟨collectCloneOutcomes_length, collectCloneOutcomes_fst, collectCloneOutcomes_snd,
   ensure_all_repos_exist_ok_iff, fun _ _ => rfl⟩

/-- C3 counterexample.  The claim concludes that every pair where one
string is a zero-padded numeric expansion of the other is equivalent.  The
semver parser rejects numeric identifiers with a leading zero, so both the
digit string 01 and its expansion 01.0 fail to parse after normalization
and fall back to raw comparison of the distinct originals: version_eq
returns false on a pair the claim requires to be true (the canonical pair
1 and 1.0 does return true). -/
theorem version_eq_leading_zero_not_equiv :
    version_eq (str "01") (str "01" ++ str ".0") = false
    ∧ (str "01").all Char.isDigit = true
    ∧ str "01" ++ str ".0" = str "01.0"
    ∧ version_eq (str "1") (str "1.0") = true := by
  refine ⟨by decide, by decide, by decide, by decide⟩

/-- C3 amended.  Normalization expands a bare digit string N to N.0.0 and
a dotted pair N.M of digit strings to N.M.0 and leaves a dotted triple
as-is; when both normalized forms parse, the result is exact
component-wise equality of the parsed values, and when either fails to
parse the result is raw string equality of the original inputs.  Hence a
pair where one member is a zero-padded numeric expansion of the other is
equivalent whenever the numeric part parses as a canonical numeric
identifier (nonempty digits, no leading zero, below 2 to the 64); a
numeric string outside canonical form, such as one with a leading zero,
falls back to literal comparison instead. -/
theorem version_eq_spec :
    (∀ v : List Char, v ≠ [] → v.all Char.isDigit = true →
      normalizeVersion v = v ++ str ".0.0")
    ∧ (∀ n m : List Char, n ≠ [] → m ≠ [] →
        n.all Char.isDigit = true → m.all Char.isDigit = true →
        normalizeVersion (n ++ '.' :: m) = (n ++ '.' :: m) ++ str ".0")
    ∧ (∀ n m p : List Char, n.all Char.isDigit = true →
        m.all Char.isDigit = true → p.all Char.isDigit = true →
        normalizeVersion (n ++ '.' :: m ++ '.' :: p) = n ++ '.' :: m ++ '.' :: p)
    ∧ (∀ (a b : List Char) (va vb : SemVer),
        parseSemVer (normalizeVersion a) = some va →
        parseSemVer (normalizeVersion b) = some vb →
        (version_eq a b = true ↔ va.major = vb.major ∧ va.minor = vb.minor
          ∧ va.patch = vb.patch ∧ va.pre = vb.pre ∧ va.build = vb.build))
    ∧ (∀ a b : List Char,
        parseSemVer (normalizeVersion a) = none
          ∨ parseSemVer (normalizeVersion b) = none →
        (version_eq a b = true ↔ a = b))
    ∧ (∀ (n : List Char) (k : Nat), parseNumericId n = some (k, []) →
        version_eq n (n ++ str ".0") = true ∧ version_eq n (n ++ str ".0.0") = true
        ∧ version_eq (n ++ str ".0") (n ++ str ".0.0") = true) := by
  refine ⟨?_, ?_, ?_, ?_, ?_, ?_⟩
  · intro v _ hall
    exact normalize_all_digits hall
  · intro n m _ _ hn hm
    exact normalize_one_dot hn hm
  · intro n m p hn hm hp
    exact normalize_two_dots hn hm hp
  · intro a b va vb ha hb
    rw [version_eq_of_parses ha hb]
    cases va
    cases vb
    simp [SemVer.mk.injEq]
  · intro a b h
    rw [version_eq_fallback h]
    simp
  · intro n k h
    exact version_eq_expansions h

/-- C4.  Both the clone fetch fallback and the detached-HEAD checkout
fallback try exactly develop, then main, then master, in that order and no
other: the attempt list is the failing front of that fixed list followed
by the first success, the selected branch is the first to succeed, and the
branch-not-found outcome happens exactly when all three fail. -/
theorem branch_fallback_order :
    ∀ ok : List Char → Bool,
      cloneSelectBranch ok = tryInOrder ok fallbackBranches
      ∧ updateCheckoutFallback ok
          = ((tryInOrder ok fallbackBranches).1, (tryInOrder ok fallbackBranches).2.isSome)
      ∧ (tryInOrder ok fallbackBranches).2 = fallbackBranches.find? ok
      ∧ (tryInOrder ok fallbackBranches).1
          = (match fallbackBranches.find? ok with
             | some b => fallbackBranches.takeWhile (fun x => ! ok x) ++ [b]
             | none => fallbackBranches)
      ∧ ((tryInOrder ok fallbackBranches).2 = none ↔
          ok (str "develop") = false ∧ ok (str "main") = false ∧ ok (str "master") = false) := by
  intro ok
  refine ⟨?_, ?_, tryInOrder_snd ok fallbackBranches, tryInOrder_fst ok fallbackBranches, ?_⟩
  · cases h1 : ok (str "develop") <;> cases h2 : ok (str "main") <;>
      cases h3 : ok (str "master") <;>
      simp [cloneSelectBranch, tryInOrder, fallbackBranches, h1, h2, h3]
  · cases h1 : ok (str "develop") <;> cases h2 : ok (str "main") <;>
      cases h3 : ok (str "master") <;>
      simp [updateCheckoutFallback, tryInOrder, fallbackBranches, h1, h2, h3]
  · cases h1 : ok (str "develop") <;> cases h2 : ok (str "main") <;>
      cases h3 : ok (str "master") <;>
      simp [tryInOrder, fallbackBranches, h1, h2, h3]

/-- C6 counterexample.  The claim says an invocation whose task has an
empty ValidState set is classified NoPolicyDefined and not NonCompliant,
receiving exactly one classification.  In the code the task is inserted
into missing_states and, independently, the same invocation is pushed into
invalid_states, so it is recorded under both. -/
theorem empty_states_invocation_also_invalid :
    (processDefaultTask [⟨str "repoA", str "1", str "azure-pipelines.yml"⟩] []).missing_state
        = true
    ∧ (processDefaultTask [⟨str "repoA", str "1", str "azure-pipelines.yml"⟩] []).invalid_impls
        = [⟨str "repoA", str "1", str "azure-pipelines.yml"⟩] := by
  refine ⟨rfl, rfl⟩

/-- C6 amended.  The generic branch marks the task as missing exactly when
its ValidState list is empty, and, independently of that, records an
invocation as invalid exactly when no Default state matches it literally —
so under an empty set every invocation is recorded as invalid as well as
falling under the missing-state marking, while a literally matching state
(for example version 1 against ValidState 1) keeps the invocation out of
the invalid list. -/
theorem default_task_classification :
    (∀ (implementations : List TaskImplementation) (valid_states : List TaskValidState),
      (processDefaultTask implementations valid_states).missing_state
        = valid_states.isEmpty)
    ∧ (∀ (implementations : List TaskImplementation) (valid_states : List TaskValidState)
        (impl : TaskImplementation),
        impl ∈ (processDefaultTask implementations valid_states).invalid_impls ↔
          impl ∈ implementations ∧ isValidDefault impl.version valid_states = false)
    ∧ (∀ implementations : List TaskImplementation,
        (processDefaultTask implementations []).invalid_impls = implementations)
    ∧ isValidDefault (str "1") [TaskValidState.default (str "1")] = true := by
  refine ⟨fun _ _ => rfl, ?_, ?_, by decide⟩
  · intro implementations valid_states impl
    simp [processDefaultTask, List.mem_filter]
  · intro implementations
    simp [processDefaultTask, isValidDefault]

/-- C7 counterexample.  The claim says CloneOnly mode treats an existing
mirror as already satisfied and performs no re-clone; but
ensure_repo_exists_new calls clone_repo unconditionally, so with the
mirror directory present it still runs the clone procedure. -/
theorem clone_only_reclones_existing_mirror :
    ensure_repo_exists_new true = [GitAction.cloneRepo]
    ∧ ensure_repo_exists_new true ≠ [] := by
  refine ⟨rfl, by decide⟩

/-- C7 amended.  With the mirror directory present, SkipIfPresent mode
(ensure_repo_exists_no_update) returns success at once performing no
repository operation at all, leaving the mirror untouched; CloneOnly mode
(ensure_repo_exists_new) runs the clone procedure unconditionally, whether
or not the mirror exists; for reference, the default Converge entry point
updates an existing mirror and clones a missing one. -/
theorem sync_mode_actions :
    ensure_repo_exists_no_update true = []
    ∧ (∀ dir_exists : Bool, ensure_repo_exists_new dir_exists = [GitAction.cloneRepo])
    ∧ ensure_repo_exists_no_update false = [GitAction.cloneRepo]
    ∧ ensure_repo_exists true = [GitAction.updateRepo]
    ∧ ensure_repo_exists false = [GitAction.cloneRepo] := by
  refine ⟨rfl, fun d => rfl, rfl, rfl, rfl⟩

/-- C9.  A repository triple with a missing setup, execute or spec member
can never satisfy any configured ValidState triple: the corresponding
map_or conjunct is false for every state, so the validity test is false
regardless of the configured states, and the missing member is rendered
with the question-mark sentinel. -/
theorem missing_member_never_compliant :
    ∀ (setup_version execute_version spec_version : Option (List Char))
      (valid_states : List GitVersionState),
      setup_version = none ∨ execute_version = none ∨ spec_version = none →
      isValidGitversionTriple setup_version execute_version spec_version valid_states = false
      ∧ renderMember none = str "?" := by
  intro setup_version execute_version spec_version valid_states h
  refine ⟨?_, rfl⟩
  apply List.any_eq_false.mpr
  intro st _
  rcases h with h | h | h <;> subst h <;> simp

/-- C9 witness: a triple missing its setup member fails against a state
list that matches the present members exactly. -/
theorem missing_member_never_compliant_witness :
    isValidGitversionTriple none (some (str "3")) (some (str "6.0.3"))
        [⟨str "3", str "3", str "6.0.3"⟩] = false
    ∧ renderMember none = str "?" :=
  missing_member_never_compliant none (some (str "3")) (some (str "6.0.3"))
    [⟨str "3", str "3", str "6.0.3"⟩] (Or.inl rfl)

/-- C5 counterexample.  The claim says a specification is attached only
when a specification field is found before either lookahead bound is hit,
never past a subsequent task line.  The loop tests for a versionSpec field
before testing for a task boundary, so when the first inspected line is
itself another task declaration that happens to contain a versionSpec
field, the code still attaches a value pulled from that boundary line. -/
theorem lookahead_attaches_on_task_boundary_line :
    lookaheadVersionSpec
        [str "task: gitversion/setup@1", str "task: other versionSpec: 2"] 0
      = some (str "other versionSpec")
    ∧ containsSub (str "task:")
        (trimChars ([str "task: gitversion/setup@1",
                     str "task: other versionSpec: 2"].getD 1 [])) = true := by
  refine ⟨by decide, by decide⟩

/-- C5 amended.  The lookahead inspects only the ten lines following the
match line: the result is computed from that window alone and is unchanged
by anything beyond it.  Within the window the scan never reads past a line
containing a task declaration, and it attaches a specification exactly
when some window line contains a versionSpec field with no strictly
earlier line containing either a versionSpec field or a task declaration —
so a boundary line containing both a task declaration and a versionSpec
field still yields an attachment, the field test being made first. -/
theorem lookahead_window_characterization :
    (∀ (lines : List (List Char)) (i : Nat),
      lookaheadVersionSpec lines i = lookaheadAux ((lines.drop (i + 1)).take 10))
    ∧ (∀ (lines : List (List Char)) (i : Nat),
        lookaheadVersionSpec lines i = lookaheadVersionSpec (lines.take (i + 1 + 10)) i)
    ∧ (∀ (w1 : List (List Char)) (l : List Char) (w2 w2' : List (List Char)),
        containsSub (str "task:") (trimChars l) = true →
        lookaheadAux (w1 ++ l :: w2) = lookaheadAux (w1 ++ l :: w2'))
    ∧ (∀ (w : List (List Char)) (s : List Char),
        lookaheadAux w = some s ↔
          ∃ pre line post, w = pre ++ line :: post
            ∧ (∀ l ∈ pre, containsSub (str "versionSpec:") (trimChars l) = false
                ∧ containsSub (str "task:") (trimChars l) = false)
            ∧ containsSub (str "versionSpec:") (trimChars line) = true
            ∧ s = extractSpecValue (trimChars line)) :=
  ⟨fun _ _ => rfl, lookaheadVersionSpec_take,
   fun w1 _ w2 w2' h => lookaheadAux_stops_at_task w1 h w2 w2',
   lookaheadAux_eq_some_iff⟩

/-- C8 counterexample.  The claim says the derived short name strips a
trailing repository suffix such as dot-git; in the code neither
GitManager::new nor Database::get_local_path strips it, so the mirror of
a URL ending in proj.git is keyed proj.git, not proj. -/
theorem repo_short_name_keeps_git_suffix :
    gitManagerRepoName (str "https://host/org/proj.git") = str "proj.git"
    ∧ str "proj.git" ≠ str "proj"
    ∧ get_local_path (str "https://host/org/proj.git")
        = [str "temp_repos", str "proj.git"] := by
  refine ⟨by decide, by decide, by decide⟩

/-- C8 amended.  The derived short name keying the local mirror under
temp_repos is the last slash-separated segment of the URL kept verbatim,
with no repository suffix stripped, and the synchronizer and the
local-path lookup derive the same directory for the same URL. -/
theorem repo_short_name_agreement :
    (∀ repo_url : List Char, gitManagerRepoDir repo_url = get_local_path repo_url)
    ∧ (∀ (a : List Char) {b : List Char}, '/' ∉ b →
        gitManagerRepoName (a ++ '/' :: b) = b) := by
  refine ⟨fun repo_url => rfl, ?_⟩
  intro a b h
  unfold gitManagerRepoName
  rw [List.getLastD_eq_getLast?, getLast?_splitOnSep_append '/' a h]
  rfl

/-- C10.  Storing a username and token free of the colon separator and
reading them back returns exactly the original pair: the token is stored
obfuscated by a byte-wise xor with 255, which is its own inverse, and a
credentials string that does not split into exactly two colon-separated
parts is rejected with an error before the stored row is touched, leaving
it unchanged. -/
theorem credentials_round_trip :
    (∀ (stored : Option CredentialsRow) (username token : List Nat),
      (58 : Nat) ∉ username → (58 : Nat) ∉ token → validUtf8 token = true →
      set_git_credentials stored (username ++ 58 :: token)
          = (some ⟨username, token.map xorByte⟩, true)
      ∧ get_git_credentials (set_git_credentials stored (username ++ 58 :: token)).1
          = Except.ok (some (username, token))
      ∧ (∀ b : Nat, xorByte (xorByte b) = b))
    ∧ (∀ (stored : Option CredentialsRow) (credentials : List Nat),
        (splitOnSep 58 credentials).length ≠ 2 →
        set_git_credentials stored credentials = (stored, false)) := by
  constructor
  · intro stored username token hu ht hutf
    have hsplit : splitOnSep 58 (username ++ 58 :: token) = [username, token] :=
      splitOnSep_append_of_not_mem hu ht
    refine ⟨?_, ?_, xorByte_involution⟩
    · simp [set_git_credentials, hsplit]
    · simp [set_git_credentials, hsplit, get_git_credentials,
        xorByte_comp_self, hutf]
  · intro stored credentials h
    simp [set_git_credentials, h]

/-- C10 witness: the concrete pair alice and s3cr3t survives the round
trip. -/
theorem credentials_round_trip_witness :
    set_git_credentials none (asciiBytes "alice" ++ 58 :: asciiBytes "s3cr3t")
        = (some ⟨asciiBytes "alice", (asciiBytes "s3cr3t").map xorByte⟩, true)
    ∧ get_git_credentials
        (set_git_credentials none (asciiBytes "alice" ++ 58 :: asciiBytes "s3cr3t")).1
        = Except.ok (some (asciiBytes "alice", asciiBytes "s3cr3t")) := by
  have h := credentials_round_trip.1 none (asciiBytes "alice") (asciiBytes "s3cr3t")
    (by decide) (by decide) (by decide)
  exact ⟨h.1, h.2.1⟩

end Gavin
